import Mathlib

/-!
Shallow embedding of `main.go` of the `ping` utility, together with proofs
of the specified properties.

Bytes are modelled as natural numbers (values `< 256`); byte strings as
`List Nat`.  Machine integers are `Nat`/`Int` with explicit `% 2^w` where
overflow matters.  `float64` round-trip times are modelled as rationals;
Go's float division by zero (which yields NaN rather than trapping) is
modelled by an `Option` result, `none` standing for the non-finite value.
-/

namespace Ping

/-! ### Byte-level encoding (`encoding/binary`, `icmp.Echo.Marshal`) -/

/-- `k` little-endian bytes of `n`: byte `i` is `n / 256^i % 256`.
Models `binary.LittleEndian.PutUint64` (with `k = 8`). -/
def toLEBytes : Nat → Nat → List Nat
  | 0, _ => []
  | k + 1, n => n % 256 :: toLEBytes k (n / 256)

/-- `binary.LittleEndian.PutUint64` from `echo` (main.go:50): the 8-byte
little-endian encoding of the nanosecond send time. -/
def putUint64LE (n : Nat) : List Nat := toLEBytes 8 n

/-- Little-endian read of a whole byte list. -/
def readLE : List Nat → Nat
  | [] => 0
  | b :: bs => b + 256 * readLE bs

/-- `binary.LittleEndian.Uint64` (main.go:216): reads exactly the first
8 bytes of its argument, little-endian. -/
def readUint64LE (b : List Nat) : Nat := readLE (b.take 8)

/-- `icmp.Echo.Marshal`: the wire form of an echo body is the 16-bit
big-endian identifier, the 16-bit big-endian sequence number, then the
echo data.  This is the `body` that main.go:207/209 re-marshals before
slicing. -/
def marshalEchoBody (id seq : Nat) (data : List Nat) : List Nat :=
  [id / 256 % 256, id % 256, seq / 256 % 256, seq % 256] ++ data

/-- The `Data` field built by `echo` (main.go:48-58): the 8-byte
little-endian timestamp followed by `dataSize - 8` space bytes
(byte value 32). -/
def echoData (now dataSize : Nat) : List Nat :=
  putUint64LE now ++ List.replicate (dataSize - 8) 32

/-- Go slice expression `b[i:]`: defined (no panic) only when
`i ≤ len(b)` (for the buffers at hand, capacity equals length). -/
def goSliceFrom (b : List Nat) (i : Nat) : Option (List Nat) :=
  if i ≤ b.length then some (b.drop i) else none

/-- Go slice expression `b[:j]`: defined (no panic) only when
`j ≤ len(b)` (capacity equals length for these buffers). -/
def goSliceTo (b : List Nat) (j : Nat) : Option (List Nat) :=
  if j ≤ b.length then some (b.take j) else none

/-- The timestamp extraction of `pingOnce` (main.go:213-216):
`body = body[4:]` followed by `binary.LittleEndian.Uint64(body[:8])`.
`none` models the panic of an out-of-range slice. -/
def extractTimestamp (body : List Nat) : Option Nat := do
  let tail ← goSliceFrom body 4
  let first8 ← goSliceTo tail 8
  pure (readUint64LE first8)

/-! ### Basic lemmas about the byte codec -/

theorem toLEBytes_length (k n : Nat) : (toLEBytes k n).length = k := by
  induction k generalizing n with
  | zero => rfl
  | succ k ih => simp [toLEBytes, ih]

theorem mod_mul_decomp (n a b : Nat) (ha : 0 < a) :
    n % (a * b) = n % a + a * (n / a % b) := by
  rcases Nat.eq_zero_or_pos b with hb | hb
  · subst hb
    rw [Nat.mul_zero, Nat.mod_zero, Nat.mod_zero]
    exact (Nat.mod_add_div n a).symm
  · conv_lhs => rw [← Nat.div_add_mod n a]
    conv_lhs => rw [← Nat.div_add_mod (n / a) b]
    have h1 : a * (b * (n / a / b) + n / a % b) + n % a
        = (a * (n / a % b) + n % a) + (a * b) * (n / a / b) := by ring
    rw [h1, Nat.add_mul_mod_self_left, Nat.mod_eq_of_lt, Nat.add_comm]
    have hmod : n % a < a := Nat.mod_lt _ ha
    have hltb : n / a % b < b := Nat.mod_lt _ hb
    have h2 : a * (n / a % b) + a ≤ a * b := by
      rw [← Nat.mul_succ]
      exact Nat.mul_le_mul_left a (Nat.succ_le_of_lt hltb)
    omega

theorem readLE_toLEBytes (k n : Nat) : readLE (toLEBytes k n) = n % 256 ^ k := by
  induction k generalizing n with
  | zero => simp [toLEBytes, readLE, Nat.mod_one]
  | succ k ih =>
      rw [toLEBytes, readLE, ih, pow_succ, mul_comm (256 ^ k) 256,
        mod_mul_decomp n 256 (256 ^ k) (by omega)]

theorem putUint64LE_length (n : Nat) : (putUint64LE n).length = 8 :=
  toLEBytes_length 8 n

theorem readUint64LE_put (n : Nat) (rest : List Nat) :
    readUint64LE (putUint64LE n ++ rest) = n % 2 ^ 64 := by
  have h8 : (putUint64LE n).length = 8 := putUint64LE_length n
  rw [readUint64LE, List.take_append_eq_append_take, h8]
  simp only [h8, List.take_of_length_le (le_of_eq h8), Nat.sub_self,
    List.take_zero, List.append_nil]
  rw [putUint64LE, readLE_toLEBytes]
  norm_num

theorem extractTimestamp_eq (body : List Nat) (h : 12 ≤ body.length) :
    extractTimestamp body = some (readUint64LE (body.drop 4)) := by
  unfold extractTimestamp goSliceFrom goSliceTo
  rw [if_pos (by omega)]
  simp only [Option.bind_eq_bind, Option.some_bind]
  rw [if_pos (by simp [List.length_drop]; omega)]
  simp [readUint64LE, List.take_take]

theorem extractTimestamp_none (body : List Nat) (h : body.length < 12) :
    extractTimestamp body = none := by
  unfold extractTimestamp goSliceFrom goSliceTo
  by_cases h4 : 4 ≤ body.length
  · rw [if_pos h4]
    simp only [Option.bind_eq_bind, Option.some_bind]
    rw [if_neg (by simp [List.length_drop]; omega)]
    rfl
  · rw [if_neg h4]; rfl

/-! ### ICMP message types and the receive loop of `pingOnce` -/

/-- An ICMP message type as parsed by `icmp.ParseMessage`: the dynamic Go
type is `ipv4.ICMPType` when the protocol argument is 1 and
`ipv6.ICMPType` when it is 58, so the value carries its family tag
(Go interface equality compares the dynamic type as well as the value). -/
inductive ICMPType where
  | v4 (t : Nat)
  | v6 (t : Nat)
deriving DecidableEq, Repr

/-- `ipv4.ICMPTypeEchoReply` (protocol-1 message type 0). -/
def ICMPTypeEchoReply4 : ICMPType := .v4 0

/-- `ipv6.ICMPTypeEchoReply` (protocol-58 message type 129). -/
def ICMPTypeEchoReply6 : ICMPType := .v6 129

/-- The type produced by `icmp.ParseMessage` in `pingOnce`
(main.go:187/199): the first message byte, tagged with the protocol the
session parses with (58 when `isIPv6`, 1 otherwise). -/
def parseMessageType (isIPv6 : Bool) (typeByte : Nat) : ICMPType :=
  if isIPv6 then .v6 typeByte else .v4 typeByte

/-- The acceptance test of main.go:206-212: the reply is processed when
its type equals `ipv4.ICMPTypeEchoReply` or `ipv6.ICMPTypeEchoReply`,
and skipped (`continue`) otherwise. -/
def acceptType (t : ICMPType) : Bool :=
  t = ICMPTypeEchoReply4 || t = ICMPTypeEchoReply6

/-- The receive loop of `pingOnce` (main.go:173-218) over the stream of
messages that arrive before the deadline.  Each incoming message is a
(type byte, marshalled echo body) pair already past header parsing.  The
deadline is set once at main.go:171 and never reset inside the loop, so
it is a fixed parameter threaded unchanged through the recursion.
`none` models deadline expiry with no accepted reply. -/
def recvLoop (isIPv6 : Bool) (deadline : Nat) :
    List (Nat × List Nat) → Option (List Nat)
  | [] => none
  | (tb, body) :: rest =>
    if acceptType (parseMessageType isIPv6 tb) then some body
    else recvLoop isIPv6 deadline rest

/-- C1: For every successful round trip, decoding a reply produced from
an encoded request recovers the embedded send timestamp exactly.  The
encoder writes the nanosecond send time `now` as the 8-byte little-endian
value at the start of the echo data (`echoData`); the reply echoes that
data back, and the decoder slices bytes 4..12 of the re-marshalled echo
body (`body[4:]` then `body[:8]`, skipping the 4-byte identifier+sequence
header) and reads them as an 8-byte little-endian value equal to the
encoded timestamp. -/
theorem c1_timestamp_roundtrip (id seq now dataSize : Nat)
    (hnow : now < 2 ^ 64) (hsize : 8 ≤ dataSize) :
    extractTimestamp (marshalEchoBody id seq (echoData now dataSize)) =
      some now := by
  have hlen : 12 ≤ (marshalEchoBody id seq (echoData now dataSize)).length := by
    simp [marshalEchoBody, echoData, putUint64LE_length]
  rw [extractTimestamp_eq _ hlen]
  have hdrop : (marshalEchoBody id seq (echoData now dataSize)).drop 4 =
      echoData now dataSize := by
    simp [marshalEchoBody]
  rw [hdrop, echoData, readUint64LE_put, Nat.mod_eq_of_lt hnow]

theorem c1_timestamp_roundtrip_witness :
    (1234567890 : Nat) < 2 ^ 64 ∧ 8 ≤ 56 ∧
    extractTimestamp (marshalEchoBody 77 3 (echoData 1234567890 56)) =
      some 1234567890 :=
  ⟨by norm_num, by norm_num,
    c1_timestamp_roundtrip 77 3 1234567890 56 (by norm_num) (by norm_num)⟩

/-- C2: a reply whose parsed type is not an Echo Reply is skipped without
error: the receive loop continues on the remaining messages under the
same, unreset deadline.  Moreover the acceptance test is version-correct:
over IPv4 (protocol 1) only type byte 0 — the IPv4 Echo Reply — is
accepted, and over IPv6 (protocol 58) only type byte 129 — the IPv6 Echo
Reply — is accepted, since `icmp.ParseMessage` tags the type with the
protocol family and Go interface equality distinguishes the tags. -/
theorem c2_skip_non_echo_reply (isIPv6 : Bool) (tb : Nat) (body : List Nat)
    (rest : List (Nat × List Nat)) (deadline : Nat)
    (h : acceptType (parseMessageType isIPv6 tb) = false) :
    recvLoop isIPv6 deadline ((tb, body) :: rest) =
        recvLoop isIPv6 deadline rest ∧
      (acceptType (parseMessageType false tb) = true ↔ tb = 0) ∧
      (acceptType (parseMessageType true tb) = true ↔ tb = 129) := by
  refine ⟨?_, ?_, ?_⟩
  · simp [recvLoop, h]
  · simp [acceptType, parseMessageType, ICMPTypeEchoReply4, ICMPTypeEchoReply6]
  · simp [acceptType, parseMessageType, ICMPTypeEchoReply4, ICMPTypeEchoReply6]

theorem c2_skip_non_echo_reply_witness :
    acceptType (parseMessageType false 3) = false ∧
    recvLoop false 1000 [(3, []), (0, [1, 2])] = recvLoop false 1000 [(0, [1, 2])] :=
  ⟨by decide, (c2_skip_non_echo_reply false 3 [] [(0, [1, 2])] 1000 (by decide)).1⟩

/-- C10: the timestamp extraction of `pingOnce` slices the re-marshalled
echo body with `body[4:]` then `body[:8]` with no length check; the
slices are in bounds (the out-of-range branch, modelled by `none`, is not
taken) exactly when the marshalled echo body carries at least 12 bytes,
i.e. at least 8 bytes of echo data after the 4-byte identifier+sequence
header.  A well-formed echo reply with fewer than 8 data bytes therefore
violates the precondition: on the concrete empty-data reply the
extraction is the out-of-range case. -/
theorem c10_short_body_out_of_range (id seq : Nat) (data : List Nat) :
    ((extractTimestamp (marshalEchoBody id seq data)).isSome ↔
        8 ≤ data.length) ∧
      extractTimestamp (marshalEchoBody 0 7 []) = none := by
  constructor
  · have hlen : (marshalEchoBody id seq data).length = 4 + data.length := by
      simp [marshalEchoBody]; omega
    constructor
    · intro hsome
      by_contra hlt
      rw [extractTimestamp_none _ (by omega)] at hsome
      simp at hsome
    · intro hge
      rw [extractTimestamp_eq _ (by omega)]
      simp
  · rfl

/-! ### Session state and the probe loops (`pingForTimes`, `pingForever`) -/

/-- `statsData` (main.go:19-23): transmitted count, received count and the
append-only list of RTT samples (`float64` modelled as `ℚ`). -/
structure statsData where
  trans : Nat
  recv : Nat
  rtts : List ℚ
deriving DecidableEq, Repr

/-- The zero-initialised `statsData` of main.go:280-284. -/
def initStats : statsData := { trans := 0, recv := 0, rtts := [] }

/-- The result of one `pingOnce` call, as the loops observe it: either a
reply with a TTL and an RTT, or any per-probe error (dial, encode, parse,
read, timeout) — the loops treat every `err != nil` identically. -/
inductive Outcome where
  | success (ttl : Nat) (rtt : ℚ)
  | failure
deriving DecidableEq, Repr

/-- One console line or block emitted by the program. -/
inductive Event where
  | banner
  | packetLine (seq : Nat)
  | timeoutLine (seq : Nat)
  | statsBlock
  | usageMsg
  | unknownHostMsg
  | countErrMsg
deriving DecidableEq, Repr

/-- The shared body of both probe loops (main.go:80-95 and 110-125): on
success increment `recv` and append the RTT sample; on failure leave them
unchanged; increment `trans` unconditionally. -/
def stepProbe (o : Outcome) (s : statsData) : statsData :=
  match o with
  | .success _ rtt =>
      { trans := s.trans + 1, recv := s.recv + 1, rtts := s.rtts ++ [rtt] }
  | .failure => { trans := s.trans + 1, recv := s.recv, rtts := s.rtts }

/-- The per-iteration console line: a packet line on success
(main.go:92), a timeout notice on failure (main.go:82). -/
def probeEvent (seq : Nat) (o : Outcome) : Event :=
  match o with
  | .success _ _ => .packetLine seq
  | .failure => .timeoutLine seq

/-- `pingForTimes` (main.go:77-105) from sequence number `i` with `count`
iterations left.  `outcomes i` is what `pingOnce` returns for sequence
`i`; `cancel i` says whether the `done` channel has a value at the poll
after iteration `i`'s sleep (main.go:98-102), in which case the loop
returns before sending the next probe.  Returns the final stats and the
emitted per-probe lines. -/
def pingForTimes (outcomes : Nat → Outcome) (cancel : Nat → Bool) :
    Nat → Nat → statsData → statsData × List Event
  | _, 0, s => (s, [])
  | i, c + 1, s =>
    let s' := stepProbe (outcomes i) s
    let e := probeEvent i (outcomes i)
    if cancel i then (s', [e])
    else
      let r := pingForTimes outcomes cancel (i + 1) c s'
      (r.1, e :: r.2)

/-- `pingForever` (main.go:108-135) from sequence number `i`, observed
for at most `fuel` iterations: the loop has no count bound and exits only
when `cancel` fires at the post-sleep poll (main.go:128-132).  `none`
means the loop was still running after `fuel` iterations. -/
def pingForever (outcomes : Nat → Outcome) (cancel : Nat → Bool) :
    Nat → Nat → statsData → Option (statsData × List Event)
  | _, 0, _ => none
  | i, fuel + 1, s =>
    let s' := stepProbe (outcomes i) s
    let e := probeEvent i (outcomes i)
    if cancel i then some (s', [e])
    else (pingForever outcomes cancel (i + 1) fuel s').map
      (fun r => (r.1, e :: r.2))

/-- `main` (main.go:251-297).  `argCount` is the number of positional
arguments, `count` the value of `-c`, `resolves` whether `resolve`
returned an address.  The result is the final stats together with every
emitted line, or `none` when the unbounded loop was still running after
`fuel` iterations.  Mirrors the control flow: argument check, resolve
check, banner, then negative-count check, then the bounded or unbounded
loop followed by the single `stats` call. -/
def mainRun (argCount : Nat) (count : Int) (resolves : Bool)
    (outcomes : Nat → Outcome) (cancel : Nat → Bool) (fuel : Nat) :
    Option (statsData × List Event) :=
  if argCount ≠ 1 then some (initStats, [.usageMsg])
  else if resolves = false then some (initStats, [.unknownHostMsg])
  else if count ≠ 0 then
    if count < 0 then some (initStats, [.banner, .countErrMsg])
    else
      let r := pingForTimes outcomes cancel 0 count.toNat initStats
      some (r.1, .banner :: (r.2 ++ [.statsBlock]))
  else
    (pingForever outcomes cancel 0 fuel initStats).map
      (fun r => (r.1, .banner :: (r.2 ++ [.statsBlock])))

/-! ### Loop lemmas -/

theorem stepProbe_trans (o : Outcome) (s : statsData) :
    (stepProbe o s).trans = s.trans + 1 := by
  cases o <;> rfl

theorem probeEvent_ne_statsBlock (i : Nat) (o : Outcome) :
    probeEvent i o ≠ Event.statsBlock := by
  cases o <;> simp [probeEvent]

theorem pingForTimes_noCancel (o : Nat → Outcome) (cancel : Nat → Bool)
    (h : ∀ j, cancel j = false) (c : Nat) :
    ∀ i s, (pingForTimes o cancel i c s).1.trans = s.trans + c ∧
      (pingForTimes o cancel i c s).2 =
        (List.range' i c).map fun j => probeEvent j (o j) := by
  induction c with
  | zero => intro i s; simp [pingForTimes]
  | succ c ih =>
      intro i s
      simp only [pingForTimes, h i, if_false, Bool.false_eq_true,
        List.range'_succ, List.map_cons]
      refine ⟨?_, ?_⟩
      · rw [(ih (i + 1) (stepProbe (o i) s)).1, stepProbe_trans]
        omega
      · rw [(ih (i + 1) (stepProbe (o i) s)).2]

/-- The session invariant of the spec: `received <= transmitted` and
`len(rttSamples) == received`. -/
def sessionInv (s : statsData) : Prop :=
  s.recv ≤ s.trans ∧ s.rtts.length = s.recv

theorem stepProbe_inv (o : Outcome) (s : statsData) (h : sessionInv s) :
    sessionInv (stepProbe o s) := by
  obtain ⟨h1, h2⟩ := h
  cases o <;> simp [stepProbe, sessionInv] <;> omega

theorem pingForTimes_inv (o : Nat → Outcome) (cancel : Nat → Bool) (c : Nat) :
    ∀ i s, sessionInv s → sessionInv (pingForTimes o cancel i c s).1 := by
  induction c with
  | zero => intro i s hs; simpa [pingForTimes] using hs
  | succ c ih =>
      intro i s hs
      simp only [pingForTimes]
      by_cases hc : cancel i
      · simpa [hc] using stepProbe_inv (o i) s hs
      · simpa [hc] using ih (i + 1) (stepProbe (o i) s) (stepProbe_inv (o i) s hs)

theorem pingForever_inv (o : Nat → Outcome) (cancel : Nat → Bool) (fuel : Nat) :
    ∀ i s r, sessionInv s → pingForever o cancel i fuel s = some r →
      sessionInv r.1 := by
  induction fuel with
  | zero => intro i s r _ hr; simp [pingForever] at hr
  | succ fuel ih =>
      intro i s r hs hr
      simp only [pingForever] at hr
      by_cases hc : cancel i
      · simp only [hc, if_true, Option.some_inj] at hr
        subst hr
        exact stepProbe_inv (o i) s hs
      · simp only [hc, if_false, Bool.false_eq_true, Option.map_eq_some'] at hr
        obtain ⟨r', hr', rfl⟩ := hr
        exact ih (i + 1) (stepProbe (o i) s) r' (stepProbe_inv (o i) s hs) hr'

theorem pingForTimes_no_statsBlock (o : Nat → Outcome) (cancel : Nat → Bool)
    (c : Nat) : ∀ i s, Event.statsBlock ∉ (pingForTimes o cancel i c s).2 := by
  induction c with
  | zero => intro i s; simp [pingForTimes]
  | succ c ih =>
      intro i s
      simp only [pingForTimes]
      by_cases hc : cancel i
      · simp [hc, (probeEvent_ne_statsBlock i (o i)).symm]
      · simpa [hc, (probeEvent_ne_statsBlock i (o i)).symm] using
          ih (i + 1) (stepProbe (o i) s)

theorem pingForever_no_statsBlock (o : Nat → Outcome) (cancel : Nat → Bool)
    (fuel : Nat) : ∀ i s r, pingForever o cancel i fuel s = some r →
      Event.statsBlock ∉ r.2 := by
  induction fuel with
  | zero => intro i s r hr; simp [pingForever] at hr
  | succ fuel ih =>
      intro i s r hr
      simp only [pingForever] at hr
      by_cases hc : cancel i
      · simp only [hc, if_true, Option.some_inj] at hr
        simp [← hr, (probeEvent_ne_statsBlock i (o i)).symm]
      · simp only [hc, if_false, Bool.false_eq_true, Option.map_eq_some'] at hr
        obtain ⟨r', hr', rfl⟩ := hr
        simpa [(probeEvent_ne_statsBlock i (o i)).symm] using
          ih (i + 1) (stepProbe (o i) s) r' hr'

theorem pingForTimes_cancelStop (o : Nat → Outcome) (cancel : Nat → Bool)
    (k : Nat) : ∀ i c s, (∀ j, j < k → cancel (i + j) = false) →
      cancel (i + k) = true → k < c →
      (pingForTimes o cancel i c s).1.trans = s.trans + k + 1 := by
  induction k with
  | zero =>
      intro i c s _ hk hc
      obtain ⟨c', rfl⟩ : ∃ c', c = c' + 1 := ⟨c - 1, by omega⟩
      simp only [pingForTimes]
      rw [Nat.add_zero] at hk
      simp [hk, stepProbe_trans]
  | succ k ih =>
      intro i c s hprev hk hc
      obtain ⟨c', rfl⟩ : ∃ c', c = c' + 1 := ⟨c - 1, by omega⟩
      simp only [pingForTimes]
      have h0 : cancel i = false := by simpa using hprev 0 (by omega)
      simp only [h0, if_false, Bool.false_eq_true]
      have hprev' : ∀ j, j < k → cancel (i + 1 + j) = false := by
        intro j hj
        have h1 := hprev (j + 1) (by omega)
        have he : i + (j + 1) = i + 1 + j := by omega
        rwa [he] at h1
      have hk' : cancel (i + 1 + k) = true := by
        have he : i + (k + 1) = i + 1 + k := by omega
        rwa [he] at hk
      rw [ih (i + 1) c' (stepProbe (o i) s) hprev' hk' (by omega), stepProbe_trans]
      omega

theorem pingForever_cancelStop (o : Nat → Outcome) (cancel : Nat → Bool)
    (k : Nat) : ∀ i fuel s, (∀ j, j < k → cancel (i + j) = false) →
      cancel (i + k) = true → k < fuel →
      ∃ r, pingForever o cancel i fuel s = some r ∧
        r.1.trans = s.trans + k + 1 := by
  induction k with
  | zero =>
      intro i fuel s _ hk hf
      obtain ⟨f', rfl⟩ : ∃ f', fuel = f' + 1 := ⟨fuel - 1, by omega⟩
      rw [Nat.add_zero] at hk
      refine ⟨(stepProbe (o i) s, [probeEvent i (o i)]), ?_, ?_⟩
      · simp [pingForever, hk]
      · simp [stepProbe_trans]
  | succ k ih =>
      intro i fuel s hprev hk hf
      obtain ⟨f', rfl⟩ : ∃ f', fuel = f' + 1 := ⟨fuel - 1, by omega⟩
      have h0 : cancel i = false := by simpa using hprev 0 (by omega)
      have hprev' : ∀ j, j < k → cancel (i + 1 + j) = false := by
        intro j hj
        have h1 := hprev (j + 1) (by omega)
        have he : i + (j + 1) = i + 1 + j := by omega
        rwa [he] at h1
      have hk' : cancel (i + 1 + k) = true := by
        have he : i + (k + 1) = i + 1 + k := by omega
        rwa [he] at hk
      obtain ⟨r', hr', ht⟩ :=
        ih (i + 1) f' (stepProbe (o i) s) hprev' hk' (by omega)
      refine ⟨(r'.1, probeEvent i (o i) :: r'.2), ?_, ?_⟩
      · simp [pingForever, h0, hr']
      · simp only [ht, stepProbe_trans]; omega

/-! ### Claim theorems on the probe loops and `main` -/

/-- C4: for every probe count `n ≥ 1`, the bounded loop with no
cancellation signal performs exactly `n` iterations (one per-probe line
each) and finishes with `transmitted == n`. -/
theorem c4_bounded_transmits_count (outcomes : Nat → Outcome)
    (cancel : Nat → Bool) (n : Nat) (hn : 1 ≤ n)
    (hc : ∀ i, cancel i = false) :
    (pingForTimes outcomes cancel 0 n initStats).1.trans = n ∧
      (pingForTimes outcomes cancel 0 n initStats).2.length = n := by
  obtain ⟨h1, h2⟩ := pingForTimes_noCancel outcomes cancel hc n 0 initStats
  constructor
  · rw [h1]; simp [initStats]
  · rw [h2]; simp

theorem c4_bounded_transmits_count_witness :
    1 ≤ 3 ∧
    (pingForTimes (fun _ => Outcome.failure) (fun _ => false) 0 3
        initStats).1.trans = 3 :=
  ⟨by norm_num,
    (c4_bounded_transmits_count (fun _ => Outcome.failure) (fun _ => false) 3
      (by norm_num) (fun _ => rfl)).1⟩

/-- C5: after every iteration of either probe loop the session statistics
satisfy `received ≤ transmitted` and `len(rttSamples) = received`: the
invariant is preserved by the shared per-iteration step and therefore
holds at every state either loop reaches from an invariant state;
`received` and the sample list grow only on a successful probe, and
`transmitted` grows by exactly one per iteration, unconditionally. -/
theorem c5_session_invariant (outcomes : Nat → Outcome)
    (cancel : Nat → Bool) (i c fuel : Nat) (s : statsData)
    (hs : sessionInv s) :
    sessionInv (pingForTimes outcomes cancel i c s).1 ∧
      (∀ r, pingForever outcomes cancel i fuel s = some r →
        sessionInv r.1) ∧
      (∀ o s', sessionInv s' → sessionInv (stepProbe o s')) ∧
      (∀ o s', (stepProbe o s').trans = s'.trans + 1) ∧
      (∀ s', (stepProbe .failure s').recv = s'.recv ∧
        (stepProbe .failure s').rtts = s'.rtts) ∧
      (∀ ttl rtt s', (stepProbe (.success ttl rtt) s').recv = s'.recv + 1 ∧
        (stepProbe (.success ttl rtt) s').rtts = s'.rtts ++ [rtt]) := by
  refine ⟨pingForTimes_inv outcomes cancel c i s hs,
    fun r => pingForever_inv outcomes cancel fuel i s r hs,
    fun o s' => stepProbe_inv o s',
    fun o s' => stepProbe_trans o s',
    fun s' => ⟨rfl, rfl⟩,
    fun ttl rtt s' => ⟨rfl, rfl⟩⟩

theorem c5_session_invariant_witness :
    sessionInv initStats ∧
      sessionInv (pingForTimes (fun _ => Outcome.success 64 5)
        (fun _ => false) 0 2 initStats).1 :=
  ⟨⟨Nat.le_refl 0, rfl⟩,
    (c5_session_invariant (fun _ => Outcome.success 64 5) (fun _ => false)
      0 2 0 initStats ⟨Nat.le_refl 0, rfl⟩).1⟩

/-- C7: when the count flag is negative, `main` prints the fatal usage
message and exits before any probing — the final stats are the untouched
zero-initialised record (`transmitted == 0`) and no probe or stats events
are emitted; when the count is 0 (or omitted, the flag default), `main`
instead enters the unbounded loop. -/
theorem c7_negative_count (count : Int) (outcomes : Nat → Outcome)
    (cancel : Nat → Bool) (fuel : Nat) (h : count < 0) :
    mainRun 1 count true outcomes cancel fuel =
        some (initStats, [.banner, .countErrMsg]) ∧
      initStats.trans = 0 ∧
      mainRun 1 0 true outcomes cancel fuel =
        (pingForever outcomes cancel 0 fuel initStats).map
          (fun r => (r.1, .banner :: (r.2 ++ [.statsBlock]))) := by
  refine ⟨?_, rfl, ?_⟩
  · have h1 : count ≠ 0 := by omega
    simp [mainRun, h1, h]
  · simp [mainRun]

theorem c7_negative_count_witness :
    ((-1 : Int) < 0) ∧
    mainRun 1 (-1) true (fun _ => Outcome.failure) (fun _ => false) 0 =
      some (initStats, [Event.banner, Event.countErrMsg]) :=
  ⟨by norm_num,
    (c7_negative_count (-1) (fun _ => Outcome.failure) (fun _ => false) 0
      (by norm_num)).1⟩

/-- C8: only resolution and usage errors halt the program (they produce a
single message and the untouched zero state); every per-probe error is
local to one iteration — a failure is reported as a timeout notice,
counted as a failed transmission (`trans` still incremented, `recv` and
the samples unchanged), and with no cancellation the bounded loop still
emits exactly one line per sequence number `0, 1, …, n-1` in order
(so transmitted reaches `n`): no probe is skipped, repeated or
retried whatever its outcome. -/
theorem c8_per_probe_errors_local (outcomes : Nat → Outcome)
    (cancel : Nat → Bool) (n : Nat) (count : Int)
    (hc : ∀ i, cancel i = false) :
    (pingForTimes outcomes cancel 0 n initStats).2 =
        (List.range n).map (fun i => probeEvent i (outcomes i)) ∧
      (∀ s i, stepProbe .failure s =
          { trans := s.trans + 1, recv := s.recv, rtts := s.rtts } ∧
        probeEvent i .failure = .timeoutLine i) ∧
      (pingForTimes outcomes cancel 0 n initStats).1.trans = n ∧
      mainRun 2 count true outcomes cancel 0 =
        some (initStats, [.usageMsg]) ∧
      mainRun 1 count false outcomes cancel 0 =
        some (initStats, [.unknownHostMsg]) := by
  obtain ⟨h1, h2⟩ := pingForTimes_noCancel outcomes cancel hc n 0 initStats
  refine ⟨?_, fun s i => ⟨rfl, rfl⟩, ?_, ?_, ?_⟩
  · rw [h2, List.range_eq_range']
  · rw [h1]; simp [initStats]
  · simp [mainRun]
  · simp [mainRun]

theorem c8_per_probe_errors_local_witness :
    (pingForTimes (fun i => if i = 1 then Outcome.failure
        else Outcome.success 64 5) (fun _ => false) 0 3 initStats).2 =
      [Event.packetLine 0, Event.timeoutLine 1, Event.packetLine 2] := by
  rw [(c8_per_probe_errors_local
    (fun i => if i = 1 then Outcome.failure else Outcome.success 64 5)
    (fun _ => false) 3 0 (fun _ => rfl)).1]
  rfl

/-- C9: a cancellation signal raised during the inter-probe sleep is
observed at the once-per-iteration poll that follows the sleep, and stops
the loop before the next probe is sent: with the first cancellation at
iteration `k`, only `k + 1` probes are transmitted however many remain.
In every termination path — count exhausted or cancellation observed, in
either loop — the final statistics block is emitted exactly once, after
the loop exits. -/
theorem c9_cancel_stops_and_stats_once (outcomes : Nat → Outcome)
    (cancel : Nat → Bool) (k : Nat) (n : Int) (fuel : Nat)
    (hk : cancel k = true) (hprev : ∀ j, j < k → cancel j = false) :
    (∀ c : Nat, k < c →
      (pingForTimes outcomes cancel 0 c initStats).1.trans = k + 1) ∧
      (0 < n → ∃ r, mainRun 1 n true outcomes cancel fuel = some r ∧
        r.2.count Event.statsBlock = 1) ∧
      (k < fuel → ∃ r, mainRun 1 0 true outcomes cancel fuel = some r ∧
        r.1.trans = k + 1 ∧ r.2.count Event.statsBlock = 1) := by
  refine ⟨?_, ?_, ?_⟩
  · intro c hkc
    rw [pingForTimes_cancelStop outcomes cancel k 0 c initStats
      (fun j hj => by simpa using hprev j hj) (by simpa using hk) hkc]
    simp [initStats]
  · intro hn
    have h1 : n ≠ 0 := by omega
    have h2 : ¬(n < 0) := by omega
    refine ⟨((pingForTimes outcomes cancel 0 n.toNat initStats).1,
      .banner :: ((pingForTimes outcomes cancel 0 n.toNat initStats).2 ++
        [.statsBlock])), ?_, ?_⟩
    · simp [mainRun, h1, h2]
    · have h0 : (pingForTimes outcomes cancel 0 n.toNat
          initStats).2.count Event.statsBlock = 0 :=
        List.count_eq_zero.mpr
          (pingForTimes_no_statsBlock outcomes cancel n.toNat 0 initStats)
      simp [List.count_cons, List.count_append, h0]
  · intro hkf
    obtain ⟨r0, hr0, ht0⟩ := pingForever_cancelStop outcomes cancel k 0 fuel
      initStats (fun j hj => by simpa using hprev j hj) (by simpa using hk)
      hkf
    refine ⟨(r0.1, .banner :: (r0.2 ++ [.statsBlock])), ?_, ?_, ?_⟩
    · simp [mainRun, hr0]
    · rw [ht0]; simp [initStats]
    · have h0 : r0.2.count Event.statsBlock = 0 :=
        List.count_eq_zero.mpr
          (pingForever_no_statsBlock outcomes cancel fuel 0 initStats r0 hr0)
      simp [List.count_cons, List.count_append, h0]

theorem c9_cancel_stops_and_stats_once_witness :
    ((fun j : Nat => j == 1) 1 = true) ∧
    (pingForTimes (fun _ => Outcome.failure) (fun j => j == 1) 0 5
        initStats).1.trans = 2 :=
  ⟨rfl,
    (c9_cancel_stops_and_stats_once (fun _ => Outcome.failure)
        (fun j => j == 1) 1 1 0 rfl
        (fun j hj => by
          have hj0 : j = 0 := by omega
          subst hj0; rfl)).1 5 (by norm_num)⟩

/-! ### The `stats` report (main.go:223-249)

`float64` arithmetic is modelled over `ℚ`; the final square root, the
only non-rational step, appears as `Real.sqrt` in the statements.  Go's
float division by zero does not trap but produces a non-finite value
(NaN here, since both operands are 0); `goFloatDiv` models that with
`none`. -/

/-- Go float division `a / b`: `none` models the non-finite result when
`b == 0`. -/
def goFloatDiv (a b : ℚ) : Option ℚ :=
  if b = 0 then none else some (a / b)

/-- The packet-loss expression of main.go:246:
`(1 - float64(s.recv) / float64(s.trans)) * 100`. -/
def packetLoss (s : statsData) : Option ℚ :=
  (goFloatDiv s.recv s.trans).map fun q => (1 - q) * 100

/-- One step of the min/max/sum scan of main.go:227-235: strict-`<`
updates of `rttMin` and `rttMax`, accumulation into `rttAvg`; index `j`
ranges over the loop counter minus one (the loop starts at `i = 1`). -/
def scanStep (rtts : List ℚ) (acc : ℚ × ℚ × ℚ) (j : Nat) : ℚ × ℚ × ℚ :=
  let x := rtts.getD (j + 1) 0
  (if x < acc.1 then x else acc.1,
   if acc.2.1 < x then x else acc.2.1,
   acc.2.2 + x)

/-- The RTT statistics of `stats` (main.go:224-241) as
`(rttMin, rttMax, rttAvg, variance)`: all four report 0 when
`recv == 0`; otherwise min/max by linear scan over indices `1..recv-1`
starting from sample 0, `rttAvg = sum / recv`, and the variance
`sum((x - rttAvg)^2) / recv` whose square root the code prints as
`rttStd`. -/
def statsRtt (s : statsData) : ℚ × ℚ × ℚ × ℚ :=
  if 0 < s.recv then
    let r0 := s.rtts.getD 0 0
    let scan := (List.range (s.recv - 1)).foldl (scanStep s.rtts) (r0, r0, r0)
    let rttAvg := scan.2.2 / s.recv
    let varSum := (List.range s.recv).foldl
      (fun acc i => acc +
        (s.rtts.getD i 0 - rttAvg) * (s.rtts.getD i 0 - rttAvg)) 0
    (scan.1, scan.2.1, rttAvg, varSum / s.recv)
  else (0, 0, 0, 0)

theorem scanStep_foldl_sum (rtts : List ℚ) (l : List Nat) :
    ∀ a b c : ℚ, (l.foldl (scanStep rtts) (a, b, c)).2.2 =
      c + (l.map fun j => rtts.getD (j + 1) 0).sum := by
  induction l with
  | nil => intro a b c; simp
  | cons x xs ih =>
      intro a b c
      simp only [List.foldl_cons, List.map_cons, List.sum_cons, scanStep]
      rw [ih]
      ring

theorem foldl_add_sum (g : Nat → ℚ) (l : List Nat) :
    ∀ c : ℚ, (l.foldl (fun acc i => acc + g i) c) = c + (l.map g).sum := by
  induction l with
  | nil => intro c; simp
  | cons x xs ih =>
      intro c
      simp only [List.foldl_cons, List.map_cons, List.sum_cons]
      rw [ih]
      ring

theorem statsRtt_mean_var (s : statsData) (h : 0 < s.recv) :
    (statsRtt s).2.2.1 =
        ((List.range s.recv).map fun i => s.rtts.getD i 0).sum / s.recv ∧
      (statsRtt s).2.2.2 =
        ((List.range s.recv).map fun i =>
          (s.rtts.getD i 0 - (statsRtt s).2.2.1) *
            (s.rtts.getD i 0 - (statsRtt s).2.2.1)).sum / s.recv := by
  obtain ⟨m, hm⟩ : ∃ m, s.recv = m + 1 := ⟨s.recv - 1, by omega⟩
  have hsum : ((List.range s.recv).map fun i => s.rtts.getD i 0).sum =
      s.rtts.getD 0 0 +
        ((List.range (s.recv - 1)).map fun j => s.rtts.getD (j + 1) 0).sum := by
    rw [hm, List.range_succ_eq_map]
    simp [List.map_map, Function.comp_def]
  have hmean : (statsRtt s).2.2.1 =
      ((List.range s.recv).map fun i => s.rtts.getD i 0).sum / s.recv := by
    simp only [statsRtt, if_pos h]
    rw [scanStep_foldl_sum, hsum]
  refine ⟨hmean, ?_⟩
  rw [hmean]
  simp only [statsRtt, if_pos h]
  rw [foldl_add_sum, scanStep_foldl_sum, ← hsum, zero_add]

/-- C3, counterexample: with `transmitted == 0` the packet-loss division
is not guarded — the formula divides by zero, so the reported loss is the
non-finite float value (modelled `none`), not the defined value 0%. -/
theorem c3_counterexample :
    ¬(packetLoss { trans := 0, recv := 0, rtts := [] } = some 0) := by
  simp [packetLoss, goFloatDiv]

/-- C3, amended: when the terminal statistics are computed with
`transmitted == 0`, the packet-loss formula performs an unguarded
division by zero, so the reported loss is the non-finite float value
(NaN, modelled `none`) rather than 0%; all four RTT statistics fields do
report as 0 (and the printed `rttStd`, the square root of the variance
field, is 0 as well). -/
theorem c3_unguarded_zero_division :
    packetLoss { trans := 0, recv := 0, rtts := [] } = none ∧
      statsRtt { trans := 0, recv := 0, rtts := [] } = (0, 0, 0, 0) ∧
      Real.sqrt ((statsRtt { trans := 0, recv := 0, rtts := [] }).2.2.2 : ℝ) =
        0 := by
  refine ⟨?_, ?_, ?_⟩
  · simp [packetLoss, goFloatDiv]
  · simp [statsRtt]
  · simp [statsRtt]

/-- C6: the statistics computation finds min and max by linear scan,
computes the mean as `sum / n` and the population variance
`sum((x - mean)^2) / n` (whose square root is the printed standard
deviation); on the RTT sample list `[10, 20, 30]` it yields
`min = 10`, `max = 30`, `mean = 20`, variance `200/3`, and the population
standard deviation `sqrt(200/3)` lies in `(8.164, 8.166)`, i.e. is
approximately 8.165. -/
theorem c6_stats_example :
    (∀ s : statsData, 0 < s.recv →
      (statsRtt s).2.2.1 =
          ((List.range s.recv).map fun i => s.rtts.getD i 0).sum / s.recv ∧
        (statsRtt s).2.2.2 =
          ((List.range s.recv).map fun i =>
            (s.rtts.getD i 0 - (statsRtt s).2.2.1) *
              (s.rtts.getD i 0 - (statsRtt s).2.2.1)).sum / s.recv) ∧
      statsRtt { trans := 3, recv := 3, rtts := [10, 20, 30] } =
        (10, 30, 20, 200 / 3) ∧
      (8.164 : ℝ) < Real.sqrt ((200 / 3 : ℚ) : ℝ) ∧
      Real.sqrt ((200 / 3 : ℚ) : ℝ) < 8.166 := by
  refine ⟨fun s hs => statsRtt_mean_var s hs,
    by norm_num [statsRtt, scanStep, List.range_succ], ?_, ?_⟩
  · rw [Real.lt_sqrt (by norm_num)]
    norm_num
  · rw [Real.sqrt_lt' (by norm_num)]
    norm_num

theorem c6_stats_example_witness :
    0 < ({ trans := 3, recv := 3, rtts := [10, 20, 30] } : statsData).recv ∧
    (statsRtt { trans := 3, recv := 3, rtts := [10, 20, 30] }).2.2.1 =
      ((List.range 3).map fun i => ([10, 20, 30] : List ℚ).getD i 0).sum / 3 :=
  ⟨by norm_num,
    (c6_stats_example.1 { trans := 3, recv := 3, rtts := [10, 20, 30] }
      (by norm_num)).1⟩

end Ping
